import Mathlib

/-!
Verification development for the trip-planner demo backend (`server.js`).

Strings are modelled as `List Char`. JavaScript string primitives used by
the source (`includes`, `split`, `replace`, `trim`, the sentence regex
`(?<=[.!?])\s+`) are re-implemented below with their exact JS semantics:
`split(sep)` splits on every occurrence of the separator, `replace(pat, fix)`
with a string pattern replaces only the first occurrence, `trim` strips the
JS whitespace set from both ends.

Floating-point arithmetic in `calculateDistance` is idealised over `Real`.
-/

/-- The JS whitespace set (`\s` plus the trim set), restricted to code points. -/
def isJsSpace (c : Char) : Bool :=
  decide (c.toNat ∈ [9, 10, 11, 12, 13, 32, 160, 5760, 8192, 8193, 8194, 8195,
    8196, 8197, 8198, 8199, 8200, 8201, 8202, 8232, 8233, 8239, 8287, 12288, 65279])

/-- JS `String.prototype.trim`: drop whitespace from both ends. -/
def trimL (l : List Char) : List Char :=
  ((l.dropWhile isJsSpace).reverse.dropWhile isJsSpace).reverse

/-- Sentence terminator characters of the regex `(?<=[.!?])\s+`. -/
def isTerm (c : Char) : Bool :=
  c == '.' || c == '!' || c == '?'

/-- Whether a list starts with a whitespace character. -/
def headIsSpace : List Char → Bool
  | [] => false
  | d :: _ => isJsSpace d

/-- Whether `l` starts with `pat` (JS `startsWith`, used to build `includes`). -/
def startsWithL : List Char → List Char → Bool
  | _, [] => true
  | [], _ :: _ => false
  | c :: cs, p :: ps => c == p && startsWithL cs ps

/-- JS `String.prototype.includes`: substring occurrence anywhere in `l`. -/
def containsB : List Char → List Char → Bool
  | [], pat => startsWithL [] pat
  | c :: cs, pat => startsWithL (c :: cs) pat || containsB cs pat

/-- The characters before the first occurrence of `pat` (all of `l` if absent). -/
def beforeFirst (pat : List Char) : List Char → List Char
  | [] => []
  | c :: cs => if startsWithL (c :: cs) pat = true then [] else c :: beforeFirst pat cs

/-- The characters after the first occurrence of `pat` (`[]` if absent). -/
def afterFirst (pat : List Char) : List Char → List Char
  | [] => []
  | c :: cs =>
    if startsWithL (c :: cs) pat = true then (c :: cs).drop pat.length
    else afterFirst pat cs

/-- JS `String.prototype.replace(pat, fix)` with an empty replacement string:
remove the first occurrence of `pat`, leave the text unchanged if absent. -/
def removeFirst (pat : List Char) : List Char → List Char
  | [] => []
  | c :: cs =>
    if startsWithL (c :: cs) pat = true then (c :: cs).drop pat.length
    else c :: removeFirst pat cs

/-- Prepend a character to the first piece of a split. -/
def consHead (c : Char) : List (List Char) → List (List Char)
  | [] => [[c]]
  | h :: t => (c :: h) :: t

/-- Fuel-indexed worker for JS `String.prototype.split(sep)` with a literal,
nonempty separator: splits on every occurrence. -/
def splitOnAux (pat : List Char) : Nat → List Char → List (List Char)
  | 0, l => [l]
  | n + 1, l =>
    if pat ≠ [] ∧ startsWithL l pat = true then
      [] :: splitOnAux pat n (l.drop pat.length)
    else
      match l with
      | [] => [[]]
      | c :: cs => consHead c (splitOnAux pat n cs)

/-- JS `l.split(pat)` for a literal separator. -/
def splitOnL (pat l : List Char) : List (List Char) :=
  splitOnAux pat (l.length + 1) l

/-- Fuel-indexed worker for the sentence split `text.split(/(?<=[.!?])\s+/)`:
a separator is a maximal whitespace run immediately preceded by `.`, `!` or `?`. -/
def splitSentAux : Nat → List Char → List Char → List (List Char)
  | 0, acc, rest => [acc.reverse ++ rest]
  | _ + 1, acc, [] => [acc.reverse]
  | n + 1, acc, c :: rest =>
    if isTerm c && headIsSpace rest then
      (acc.reverse ++ [c]) :: splitSentAux n [] (rest.dropWhile isJsSpace)
    else
      splitSentAux n (c :: acc) rest

/-- `reasoningBuffer.split(/(?<=[.!?])\s+/)` from line 152 of `server.js`. -/
def splitSent (l : List Char) : List (List Char) :=
  splitSentAux (l.length + 1) [] l

/-- Severity levels used by `logToDebug`. -/
inductive LogLevel where
  | info
  | success
  | error
deriving DecidableEq

/-- One debug-console record (timestamp omitted: it never affects control flow). -/
structure Notif where
  level : LogLevel
  message : List Char
deriving DecidableEq

/-- The literal marker `'REASONING:'` (line 135). -/
def reasoningMarker : List Char := ("REASONING:".toList)

/-- The literal marker `'RESULT:'` (lines 142, 173). -/
def resultMarker : List Char := ("RESULT:".toList)

/-- `logToDebug('AI started reasoning process...', 'info')` payload (line 137). -/
def startNotif : Notif :=
  { level := LogLevel.info, message := ("AI started reasoning process...".toList) }

/-- `logToDebug('AI completed reasoning, ...', 'success')` payload (line 144). -/
def doneNotif : Notif :=
  { level := LogLevel.success,
    message := ("AI completed reasoning, generating itinerary...".toList) }

/-- Message head of the per-sentence log lines. -/
def aiMark : List Char := ("AI: ".toList)

/-- Stream-classifier state: `fullResponse`, `reasoningBuffer`, `inReasoning`
(lines 123-126 of `server.js`). -/
structure CState where
  fullResponse : List Char
  reasoningBuffer : List Char
  inReasoning : Bool
deriving DecidableEq

/-- Initial classifier state. -/
def initState : CState := { fullResponse := [], reasoningBuffer := [], inReasoning := false }

/-- Result of processing fragments: new state, notifications to the debug
consoles, and chunk events written to the caller, each in emission order. -/
structure StepOut where
  state : CState
  notifs : List Notif
  chunks : List (List Char)
deriving DecidableEq

/-- The per-sentence logging loop (lines 153-158): for every completed
sentence, trim it; log `AI: <sentence>` if it is nonempty and longer than
10 characters. -/
def aiEmit (sentences : List (List Char)) : List Notif :=
  sentences.filterMap (fun sen =>
    if trimL sen ≠ [] ∧ (trimL sen).length > 10 then
      some { level := LogLevel.info, message := aiMark ++ trimL sen }
    else none)

/-- One iteration of the stream loop (lines 128-165 of `server.js`) on a
fragment `content`. Empty content is skipped entirely (`if (content)`).
Otherwise: append to `fullResponse` and `reasoningBuffer`; detect the
`REASONING:` marker (enter reasoning, clear buffer); detect the `RESULT:`
marker (leave reasoning, clear buffer); while in reasoning, if the fragment
contains `'.'` or a newline and trims nonempty, split the buffer into
sentences, log the completed ones, retain the last piece; finally relay the
raw fragment as a chunk event. -/
def stepFrag (s : CState) (content : List Char) : StepOut :=
  if content = [] then { state := s, notifs := [], chunks := [] }
  else
    let fullResponse := s.fullResponse ++ content
    let buf0 := s.reasoningBuffer ++ content
    let st1 : Bool × List Char × List Notif :=
      if containsB buf0 reasoningMarker = true ∧ s.inReasoning = false then
        (true, [], [startNotif])
      else (s.inReasoning, buf0, [])
    let st2 : Bool × List Char × List Notif :=
      if containsB st1.2.1 resultMarker = true ∧ st1.1 = true then
        (false, [], [doneNotif])
      else (st1.1, st1.2.1, [])
    if st2.1 = true ∧ trimL content ≠ [] ∧
        (content.contains '.' = true ∨ content.contains '\n' = true) then
      let sentences := splitSent st2.2.1
      { state := { fullResponse := fullResponse,
                   reasoningBuffer := sentences.getLastD [],
                   inReasoning := st2.1 },
        notifs := st1.2.2 ++ st2.2.2 ++ aiEmit sentences.dropLast,
        chunks := [content] }
    else
      { state := { fullResponse := fullResponse,
                   reasoningBuffer := st2.2.1,
                   inReasoning := st2.1 },
        notifs := st1.2.2 ++ st2.2.2,
        chunks := [content] }

/-- Run the stream loop over a whole fragment sequence, collecting the
notifications and chunk events in order. -/
def runFrags (s : CState) : List (List Char) → StepOut
  | [] => { state := s, notifs := [], chunks := [] }
  | c :: fs =>
    let r := stepFrag s c
    let rest := runFrags r.state fs
    { state := rest.state, notifs := r.notifs ++ rest.notifs,
      chunks := r.chunks ++ rest.chunks }

/-- Concatenation of a fragment sequence. -/
def flattenL : List (List Char) → List Char
  | [] => []
  | l :: ls => l ++ flattenL ls

/-- The post-stream split of the accumulated text (spec name `ExtractedResult`). -/
structure Extracted where
  reasoningText : List Char
  resultText : List Char
deriving DecidableEq

/-- The result extraction (lines 171-182 of `server.js`): if the accumulated
text contains `'RESULT:'`, let `parts = fullResponse.split('RESULT:')`; the
result is `parts[1].trim()` and the reasoning is
`parts[0].replace('REASONING:', '').trim()`; otherwise the whole text is the
result and there is no reasoning summary. -/
def extractResult (t : List Char) : Extracted :=
  if containsB t resultMarker = true then
    let parts := splitOnL resultMarker t
    { reasoningText := trimL (removeFirst reasoningMarker (parts.getD 0 [])),
      resultText := trimL (parts.getD 1 []) }
  else { reasoningText := [], resultText := t }

/-- `toRad` (lines 252-254): degrees to radians. -/
noncomputable def toRad (degrees : ℝ) : ℝ :=
  degrees * (Real.pi / 180)

/-- `Math.atan2(y, x)`, per its mathematical definition (the signed-zero
cases of the JS builtin coincide with the `x = 0` branches on `Real`). -/
noncomputable def atan2 (y x : ℝ) : ℝ :=
  if 0 < x then Real.arctan (y / x)
  else if x < 0 ∧ 0 ≤ y then Real.arctan (y / x) + Real.pi
  else if x < 0 ∧ y < 0 then Real.arctan (y / x) - Real.pi
  else if x = 0 ∧ 0 < y then Real.pi / 2
  else if x = 0 ∧ y < 0 then -(Real.pi / 2)
  else 0

/-- The intermediate `a` of the haversine formula (lines 244-247). -/
noncomputable def haverA (lat1 lon1 lat2 lon2 : ℝ) : ℝ :=
  Real.sin (toRad (lat2 - lat1) / 2) * Real.sin (toRad (lat2 - lat1) / 2) +
    Real.cos (toRad lat1) * Real.cos (toRad lat2) *
      Real.sin (toRad (lon2 - lon1) / 2) * Real.sin (toRad (lon2 - lon1) / 2)

/-- `calculateDistance` (lines 240-250): haversine distance with Earth
radius 3959 miles, `c = 2 * atan2(sqrt(a), sqrt(1 - a))`, result `R * c`. -/
noncomputable def calculateDistance (lat1 lon1 lat2 lon2 : ℝ) : ℝ :=
  3959 * (2 * atan2 (Real.sqrt (haverA lat1 lon1 lat2 lon2))
    (Real.sqrt (1 - haverA lat1 lon1 lat2 lon2)))

/-- Origin of a planning request (`hotel` in the request body). -/
structure Hotel where
  name : String
  lat : ℝ
  lng : ℝ
  city : String

/-- A candidate point of interest (`activities` entries); `price` is
optional, absent meaning 0 in the filter. -/
structure Activity where
  name : String
  price : Option ℝ
  rating : ℝ
  lat : ℝ
  lng : ℝ

/-- Request constraints (`preferences`). -/
structure Prefs where
  budget : ℝ
  maxDistance : ℝ
  duration : String

open Classical in
/-- The activity filter (lines 83-90): keep an activity iff its haversine
distance from the hotel is at most `maxDistance` and its price (0 when
absent) is at most `budget`. -/
noncomputable def filterActivities (hotel : Hotel) (activities : List Activity)
    (preferences : Prefs) : List Activity :=
  activities.filter (fun activity =>
    decide (calculateDistance hotel.lat hotel.lng activity.lat activity.lng ≤
        preferences.maxDistance ∧
      activity.price.getD 0 ≤ preferences.budget))

/-- `logToDebug` fan-out (lines 29-44): iterate over the client set and send
the record to every client whose `readyState` is `OPEN`; the set itself is
not modified. Clients are identified by numbers; readiness is the ambient
per-client connection state at broadcast time. Returns the (unchanged) set
and the list of deliveries in iteration order. -/
def broadcast (clients : List Nat) (ready : Nat → Bool) (n : Notif) :
    List Nat × List (Nat × Notif) :=
  (clients, clients.filterMap (fun c => if ready c = true then some (c, n) else none))

/-- `debugClients.add(ws)` (line 48): JS `Set.add`, a no-op on a present member. -/
def subscribeClient (clients : List Nat) (x : Nat) : List Nat :=
  if x ∈ clients then clients else clients ++ [x]

/-- `debugClients.delete(ws)` (line 52): JS `Set.delete`. -/
def unsubscribeClient (clients : List Nat) (x : Nat) : List Nat :=
  clients.erase x

lemma startsWithL_nil_iff (pat : List Char) : startsWithL [] pat = true ↔ pat = [] := by
  cases pat <;> simp [startsWithL]

lemma startsWithL_append (a b pat : List Char) (h : startsWithL a pat = true) :
    startsWithL (a ++ b) pat = true := by
  induction pat generalizing a with
  | nil => cases a <;> simp [startsWithL]
  | cons p ps ih =>
    cases a with
    | nil => simp [startsWithL] at h
    | cons c cs =>
      simp only [startsWithL, Bool.and_eq_true, beq_iff_eq] at h
      simp only [List.cons_append, startsWithL, Bool.and_eq_true, beq_iff_eq]
      exact ⟨h.1, ih cs h.2⟩

lemma containsB_nil_pat (l : List Char) : containsB l [] = true := by
  cases l <;> simp [containsB, startsWithL]

lemma containsB_append_left (a b pat : List Char) (h : containsB a pat = true) :
    containsB (a ++ b) pat = true := by
  induction a with
  | nil =>
    simp only [containsB] at h
    rw [(startsWithL_nil_iff pat).mp h]
    exact containsB_nil_pat _
  | cons c cs ih =>
    simp only [containsB, Bool.or_eq_true] at h
    simp only [List.cons_append, containsB, Bool.or_eq_true]
    rcases h with h | h
    · exact Or.inl (startsWithL_append (c :: cs) b pat h)
    · exact Or.inr (ih h)

lemma containsB_false_of_append (a b pat : List Char)
    (h : containsB (a ++ b) pat = false) : containsB a pat = false := by
  cases hc : containsB a pat with
  | false => rfl
  | true => rw [containsB_append_left a b pat hc] at h; exact absurd h (by simp)

lemma startsWithL_isPrefix (l pat : List Char) (h : startsWithL l pat = true) :
    pat <+: l := by
  induction l generalizing pat with
  | nil => rw [(startsWithL_nil_iff pat).mp h]
  | cons c cs ih =>
    cases pat with
    | nil => exact List.nil_prefix
    | cons p ps =>
      simp only [startsWithL, Bool.and_eq_true, beq_iff_eq] at h
      rw [← h.1]
      exact List.cons_prefix_cons.mpr ⟨rfl, ih ps h.2⟩

lemma containsB_substr (l pat : List Char) (h : containsB l pat = true) :
    pat <:+: l := by
  induction l with
  | nil =>
    simp only [containsB] at h
    rw [(startsWithL_nil_iff pat).mp h]
  | cons c cs ih =>
    simp only [containsB, Bool.or_eq_true] at h
    rcases h with h | h
    · exact (startsWithL_isPrefix _ _ h).isInfix
    · exact List.infix_cons (ih h)

lemma trimL_ne_nil (l : List Char) (c : Char) (hc : c ∈ l) (hs : isJsSpace c = false) :
    trimL l ≠ [] := by
  intro h
  unfold trimL at h
  rw [List.reverse_eq_nil_iff, List.dropWhile_eq_nil_iff] at h
  have h3 : ∀ x ∈ l, isJsSpace x = true := by
    intro x hx
    rw [← List.takeWhile_append_dropWhile (p := isJsSpace) (l := l)] at hx
    rcases List.mem_append.mp hx with h4 | h4
    · exact List.mem_takeWhile_imp h4
    · exact h x (by simpa using h4)
  rw [h3 c hc] at hs
  exact absurd hs (by simp)

lemma startsWithL_length_le (l pat : List Char) (h : startsWithL l pat = true) :
    pat.length ≤ l.length :=
  (startsWithL_isPrefix l pat h).length_le

lemma consHead_getD_zero (c : Char) (L : List (List Char)) :
    (consHead c L).getD 0 [] = c :: L.getD 0 [] := by
  cases L <;> simp [consHead]

lemma consHead_getD_one (c : Char) (L : List (List Char)) :
    (consHead c L).getD 1 [] = L.getD 1 [] := by
  cases L with
  | nil => simp [consHead]
  | cons h t => cases t <;> simp [consHead]

lemma splitOnAux_getD_zero (pat : List Char) (hp : pat ≠ []) :
    ∀ (n : Nat) (l : List Char), l.length < n →
      (splitOnAux pat n l).getD 0 [] = beforeFirst pat l := by
  intro n
  induction n with
  | zero => intro l hl; exact absurd hl (by omega)
  | succ n ih =>
    intro l hl
    by_cases hs : startsWithL l pat = true
    · cases l with
      | nil => exact absurd ((startsWithL_nil_iff pat).mp hs) hp
      | cons c cs =>
        simp only [splitOnAux, if_pos (And.intro hp hs)]
        simp [beforeFirst, hs]
    · have hcond : ¬ (pat ≠ [] ∧ startsWithL l pat = true) := fun hh => hs hh.2
      cases l with
      | nil => simp [splitOnAux, hcond, beforeFirst]
      | cons c cs =>
        simp only [splitOnAux, if_neg hcond]
        rw [consHead_getD_zero]
        rw [ih cs (by simpa using Nat.lt_of_succ_lt_succ hl)]
        simp [beforeFirst, hs]

lemma splitOnAux_getD_one (pat : List Char) (hp : pat ≠ []) :
    ∀ (n : Nat) (l : List Char), l.length < n → containsB l pat = true →
      (splitOnAux pat n l).getD 1 [] = beforeFirst pat (afterFirst pat l) := by
  intro n
  induction n with
  | zero => intro l hl; exact fun _ => absurd hl (by omega)
  | succ n ih =>
    intro l hl hcont
    by_cases hs : startsWithL l pat = true
    · cases l with
      | nil => exact absurd ((startsWithL_nil_iff pat).mp hs) hp
      | cons c cs =>
        simp only [splitOnAux, if_pos (And.intro hp hs)]
        have hlen : ((c :: cs).drop pat.length).length < n := by
          have h1 : pat.length ≤ (c :: cs).length := startsWithL_length_le _ _ hs
          have h2 : 1 ≤ pat.length := by
            cases pat with
            | nil => exact absurd rfl hp
            | cons _ _ => simp
          rw [List.length_drop]
          simp only [List.length_cons] at hl ⊢
          omega
        have := splitOnAux_getD_zero pat hp n ((c :: cs).drop pat.length) hlen
        simp only [List.getD_cons_succ]
        rw [this]
        simp [afterFirst, hs]
    · have hcond : ¬ (pat ≠ [] ∧ startsWithL l pat = true) := fun hh => hs hh.2
      cases l with
      | nil =>
        simp only [containsB] at hcont
        exact absurd ((startsWithL_nil_iff pat).mp hcont) hp
      | cons c cs =>
        simp only [splitOnAux, if_neg hcond]
        rw [consHead_getD_one]
        have hcont2 : containsB cs pat = true := by
          simp only [containsB, Bool.or_eq_true] at hcont
          rcases hcont with h | h
          · exact absurd h hs
          · exact h
        rw [ih cs (by simpa using Nat.lt_of_succ_lt_succ hl) hcont2]
        simp [afterFirst, hs]

lemma extractResult_eq (t : List Char) :
    extractResult t =
      if containsB t resultMarker = true then
        { reasoningText := trimL (removeFirst reasoningMarker (beforeFirst resultMarker t)),
          resultText := trimL (beforeFirst resultMarker (afterFirst resultMarker t)) }
      else { reasoningText := [], resultText := t } := by
  simp only [extractResult, splitOnL]
  by_cases hc : containsB t resultMarker = true
  · rw [if_pos hc, if_pos hc]
    have hp : resultMarker ≠ [] := by decide
    rw [splitOnAux_getD_zero resultMarker hp (t.length + 1) t (by omega)]
    rw [splitOnAux_getD_one resultMarker hp (t.length + 1) t (by omega) hc]
  · rw [if_neg hc, if_neg hc]

lemma stepFrag_chunks (s : CState) (content : List Char) :
    (stepFrag s content).chunks = if content = [] then [] else [content] := by
  by_cases hc : content = []
  · simp [stepFrag, hc]
  · rw [if_neg hc]
    simp only [stepFrag, if_neg hc]
    repeat' split
    all_goals rfl

lemma stepFrag_notInReasoning (s : CState) (content : List Char)
    (hIn : s.inReasoning = false)
    (hNoReas : containsB (s.reasoningBuffer ++ content) reasoningMarker = false) :
    stepFrag s content =
      { state := { fullResponse := s.fullResponse ++ content,
                   reasoningBuffer := s.reasoningBuffer ++ content,
                   inReasoning := false },
        notifs := [],
        chunks := if content = [] then [] else [content] } := by
  by_cases hc : content = []
  · cases s with
    | mk f b r => subst hc; simp_all [stepFrag]
  · simp [stepFrag, hc, hIn, hNoReas]

lemma stepFrag_resultFire (s : CState) (content : List Char)
    (hIn : s.inReasoning = true) (hc : content ≠ [])
    (hRes : containsB (s.reasoningBuffer ++ content) resultMarker = true) :
    stepFrag s content =
      { state := { fullResponse := s.fullResponse ++ content,
                   reasoningBuffer := [], inReasoning := false },
        notifs := [doneNotif], chunks := [content] } := by
  simp [stepFrag, hc, hIn, hRes]

lemma stepFrag_inReasoningStep (s : CState) (content : List Char)
    (hIn : s.inReasoning = true) (hc : content ≠ [])
    (hNoRes : containsB (s.reasoningBuffer ++ content) resultMarker = false) :
    stepFrag s content =
      if trimL content ≠ [] ∧
          (content.contains '.' = true ∨ content.contains '\n' = true) then
        { state := { fullResponse := s.fullResponse ++ content,
                     reasoningBuffer :=
                       (splitSent (s.reasoningBuffer ++ content)).getLastD [],
                     inReasoning := true },
          notifs := aiEmit (splitSent (s.reasoningBuffer ++ content)).dropLast,
          chunks := [content] }
      else
        { state := { fullResponse := s.fullResponse ++ content,
                     reasoningBuffer := s.reasoningBuffer ++ content,
                     inReasoning := true },
          notifs := [], chunks := [content] } := by
  simp [stepFrag, hc, hIn, hNoRes]

lemma flattenL_append (a b : List (List Char)) :
    flattenL (a ++ b) = flattenL a ++ flattenL b := by
  induction a with
  | nil => simp [flattenL]
  | cons l ls ih => simp [flattenL, ih]

lemma runFrags_quiet :
    ∀ (fs : List (List Char)) (s : CState), s.inReasoning = false →
      containsB (s.reasoningBuffer ++ flattenL fs) reasoningMarker = false →
      (runFrags s fs).state =
        { fullResponse := s.fullResponse ++ flattenL fs,
          reasoningBuffer := s.reasoningBuffer ++ flattenL fs,
          inReasoning := false } ∧
      (runFrags s fs).notifs = [] := by
  intro fs
  induction fs with
  | nil =>
    intro s hIn _
    cases s with
    | mk f b r =>
      simp only [runFrags, flattenL, List.append_nil]
      simp_all
  | cons c fs ih =>
    intro s hIn hNo
    have hassoc : s.reasoningBuffer ++ flattenL (c :: fs) =
        (s.reasoningBuffer ++ c) ++ flattenL fs := by
      simp [flattenL, List.append_assoc]
    rw [hassoc] at hNo
    have h1 : containsB (s.reasoningBuffer ++ c) reasoningMarker = false :=
      containsB_false_of_append _ _ _ hNo
    have hstep := stepFrag_notInReasoning s c hIn h1
    have ihres := ih { fullResponse := s.fullResponse ++ c,
                       reasoningBuffer := s.reasoningBuffer ++ c,
                       inReasoning := false } rfl (by simpa using hNo)
    simp only [runFrags, hstep]
    refine ⟨?_, ?_⟩
    · rw [ihres.1]
      simp [flattenL, List.append_assoc]
    · simp [ihres.2]

lemma aiEmit_message_long (L : List (List Char)) (n : Notif) (h : n ∈ aiEmit L) :
    14 < n.message.length := by
  unfold aiEmit at h
  rw [List.mem_filterMap] at h
  obtain ⟨sen, _, hsen⟩ := h
  by_cases hcond : trimL sen ≠ [] ∧ (trimL sen).length > 10
  · rw [if_pos hcond] at hsen
    cases hsen
    have : aiMark.length = 4 := by decide
    simp only [List.length_append, this]
    omega
  · rw [if_neg hcond] at hsen
    cases hsen

lemma aiEmit_mem (L : List (List Char)) (sen : List Char) (hsen : sen ∈ L)
    (hlong : (trimL sen).length > 10) :
    { level := LogLevel.info, message := aiMark ++ trimL sen } ∈ aiEmit L := by
  unfold aiEmit
  rw [List.mem_filterMap]
  refine ⟨sen, hsen, ?_⟩
  have hne : trimL sen ≠ [] := by
    intro hnil
    rw [hnil] at hlong
    simp at hlong
  rw [if_pos (And.intro hne hlong)]

lemma haverA_symm (lat1 lon1 lat2 lon2 : ℝ) :
    haverA lat1 lon1 lat2 lon2 = haverA lat2 lon2 lat1 lon1 := by
  unfold haverA
  have s1 : Real.sin (toRad (lat1 - lat2) / 2) = -Real.sin (toRad (lat2 - lat1) / 2) := by
    rw [show toRad (lat1 - lat2) / 2 = -(toRad (lat2 - lat1) / 2) by unfold toRad; ring,
      Real.sin_neg]
  have s2 : Real.sin (toRad (lon1 - lon2) / 2) = -Real.sin (toRad (lon2 - lon1) / 2) := by
    rw [show toRad (lon1 - lon2) / 2 = -(toRad (lon2 - lon1) / 2) by unfold toRad; ring,
      Real.sin_neg]
  rw [s1, s2]
  ring

lemma haverA_self (lat lon : ℝ) : haverA lat lon lat lon = 0 := by
  unfold haverA
  simp [sub_self, toRad]

lemma atan2_zero_one : atan2 0 1 = 0 := by
  unfold atan2
  rw [if_pos one_pos]
  simp

/-- Claim C1 (corrected), counterexample to the original: on an accumulated
text with two occurrences of `RESULT:`, the code's `split`-based extraction
returns only the segment between the first and second occurrence, not
everything after the first occurrence (which would be `[1] RESULT: [2]`). -/
theorem claim_C1_counterexample :
    (extractResult ("REASONING: pick A. RESULT: [1] RESULT: [2]".toList)).resultText
        = ("[1]".toList) ∧
    (extractResult ("REASONING: pick A. RESULT: [1] RESULT: [2]".toList)).resultText
        ≠ ("[1] RESULT: [2]".toList) := by decide

/-- Claim C1 (amended): for text containing `RESULT:`, `resultText` is the
trimmed segment strictly between the first occurrence and the next one
(everything after the first when it is unique), and `reasoningText` is the
text before the first occurrence with the first occurrence of `REASONING:`
(anywhere, not only leading) removed, trimmed; for text without `RESULT:`,
`resultText` is the whole text and `reasoningText` is empty. -/
theorem claim_C1_amended (t : List Char) :
    (containsB t resultMarker = true →
      extractResult t =
        { reasoningText := trimL (removeFirst reasoningMarker (beforeFirst resultMarker t)),
          resultText := trimL (beforeFirst resultMarker (afterFirst resultMarker t)) }) ∧
    (containsB t resultMarker = false →
      extractResult t = { reasoningText := [], resultText := t }) := by
  constructor
  · intro h
    rw [extractResult_eq, if_pos h]
  · intro h
    rw [extractResult_eq, if_neg (by simp [h])]

/-- Claim C1, witness for the amended theorem at a concrete input. -/
theorem claim_C1_witness :
    containsB ("REASONING: x RESULT: y".toList) resultMarker = true ∧
    extractResult ("REASONING: x RESULT: y".toList) =
      { reasoningText := trimL (removeFirst reasoningMarker
          (beforeFirst resultMarker ("REASONING: x RESULT: y".toList))),
        resultText := trimL (beforeFirst resultMarker
          (afterFirst resultMarker ("REASONING: x RESULT: y".toList))) } :=
  ⟨by decide, (claim_C1_amended ("REASONING: x RESULT: y".toList)).1 (by decide)⟩

/-- Claim C2 (corrected), counterexample to the original: while in
`IN_REASONING`, a fragment containing `!` followed by whitespace (a sentence
terminator per the claim) but no `.` and no newline triggers no split at all:
the code emits no notification and keeps the whole pending buffer, although
the claim demands a notification for the completed sentence
`Great sights ahead!` (trimmed length 19 > 10). -/
theorem claim_C2_counterexample :
    (stepFrag { fullResponse := [], reasoningBuffer := [], inReasoning := true }
        ("Great sights ahead! Then more".toList)).notifs = [] ∧
    (stepFrag { fullResponse := [], reasoningBuffer := [], inReasoning := true }
        ("Great sights ahead! Then more".toList)).state.reasoningBuffer =
      ("Great sights ahead! Then more".toList) ∧
    (splitSent ("Great sights ahead! Then more".toList)).dropLast =
      [("Great sights ahead!".toList)] ∧
    (trimL ("Great sights ahead!".toList)).length > 10 ∧
    trimL ("Great sights ahead! Then more".toList) ≠ [] := by decide

/-- Claim C2 (amended): in `IN_REASONING` with no `RESULT:` transition this
step, the sentence split fires exactly when the fragment trims nonempty and
contains `'.'` or a newline (`!` and `?` are terminators only inside the
split regex, not triggers): then the pending buffer is split at sentence
boundaries, a notification `AI: <sentence>` is emitted for exactly the
completed sentences of trimmed length over 10 characters, none for shorter
ones, and the last piece becomes the new pending buffer; otherwise nothing
is emitted and the fragment is just appended to the pending buffer. -/
theorem claim_C2_amended (s : CState) (content : List Char)
    (hIn : s.inReasoning = true)
    (hNoRes : containsB (s.reasoningBuffer ++ content) resultMarker = false) :
    (trimL content ≠ [] ∧
        (content.contains '.' = true ∨ content.contains '\n' = true) →
      (stepFrag s content).notifs =
          aiEmit (splitSent (s.reasoningBuffer ++ content)).dropLast ∧
      (stepFrag s content).state.reasoningBuffer =
          (splitSent (s.reasoningBuffer ++ content)).getLastD [] ∧
      (stepFrag s content).state.inReasoning = true ∧
      (∀ sen ∈ (splitSent (s.reasoningBuffer ++ content)).dropLast,
        ((trimL sen).length > 10 →
          { level := LogLevel.info, message := aiMark ++ trimL sen } ∈
            (stepFrag s content).notifs) ∧
        ((trimL sen).length ≤ 10 →
          { level := LogLevel.info, message := aiMark ++ trimL sen } ∉
            (stepFrag s content).notifs))) ∧
    (trimL content = [] ∨
        (content.contains '.' = false ∧ content.contains '\n' = false) →
      (stepFrag s content).notifs = [] ∧
      (stepFrag s content).state.reasoningBuffer = s.reasoningBuffer ++ content ∧
      (stepFrag s content).state.inReasoning = true) := by
  by_cases hc : content = []
  · subst hc
    constructor
    · intro h
      exact absurd (by decide : trimL ([] : List Char) = []) h.1
    · intro _
      refine ⟨?_, ?_, ?_⟩ <;> simp [stepFrag, hIn]
  · have hstep := stepFrag_inReasoningStep s content hIn hc hNoRes
    constructor
    · intro hcond
      rw [hstep, if_pos hcond]
      refine ⟨rfl, rfl, rfl, ?_⟩
      intro sen hsen
      constructor
      · intro hlong
        exact aiEmit_mem _ sen hsen hlong
      · intro hshort hmem
        have hlen := aiEmit_message_long
          ((splitSent (s.reasoningBuffer ++ content)).dropLast) _ hmem
        simp only [List.length_append] at hlen
        have h4 : aiMark.length = 4 := by decide
        omega
    · intro hcond
      have hcond2 : ¬(trimL content ≠ [] ∧
          (content.contains '.' = true ∨ content.contains '\n' = true)) := by
        rcases hcond with h | h
        · intro hh
          exact hh.1 h
        · intro hh
          rcases hh.2 with h2 | h2
          · rw [h.1] at h2
            exact Bool.false_ne_true h2
          · rw [h.2] at h2
            exact Bool.false_ne_true h2
      rw [hstep, if_neg hcond2]
      exact ⟨rfl, rfl, rfl⟩

/-- Claim C2, witness for the amended theorem at a concrete state and fragment. -/
theorem claim_C2_witness :
    ((⟨[], ("Seed ".toList), true⟩ : CState).inReasoning = true ∧
      containsB (("Seed ".toList) ++ ("First long sentence. tail".toList))
        resultMarker = false ∧
      (trimL ("First long sentence. tail".toList) ≠ [] ∧
        (("First long sentence. tail".toList).contains '.' = true ∨
          ("First long sentence. tail".toList).contains '\n' = true))) ∧
    (stepFrag ⟨[], ("Seed ".toList), true⟩ ("First long sentence. tail".toList)).notifs =
      aiEmit (splitSent (("Seed ".toList) ++
        ("First long sentence. tail".toList))).dropLast :=
  ⟨⟨rfl, by decide, by decide⟩,
    ((claim_C2_amended ⟨[], ("Seed ".toList), true⟩
      ("First long sentence. tail".toList) rfl (by decide)).1 (by decide)).1⟩

/-- Claim C3 (corrected), counterexample to the original: after `RESULT:` is
detected (success notification emitted), a later fragment containing
`REASONING:` re-emits the start notification and re-enters `IN_REASONING`:
the state after `RESULT:` is not terminal. -/
theorem claim_C3_counterexample :
    (runFrags initState [("REASONING: go. ".toList), ("RESULT: [1] ".toList),
        ("REASONING: more".toList)]).notifs = [startNotif, doneNotif, startNotif] ∧
    (runFrags initState [("REASONING: go. ".toList), ("RESULT: [1] ".toList),
        ("REASONING: more".toList)]).state.inReasoning = true := by decide

/-- Claim C3 (amended): detecting `RESULT:` leaves `IN_REASONING` and resets
the classifier to a state identical to the initial one (cleared buffer,
flag down), so it is terminal only conditionally: as long as no later
pending buffer contains `REASONING:` — in particular whenever the
concatenation of the remaining fragments lacks the marker — processing the
remaining fragments emits no further notification (in particular never the
start notification) and never re-enters `IN_REASONING`. -/
theorem claim_C3_amended (s : CState) (c : List Char) (fs : List (List Char))
    (hIn : s.inReasoning = true) (hc : c ≠ [])
    (hRes : containsB (s.reasoningBuffer ++ c) resultMarker = true)
    (hNo : containsB (flattenL fs) reasoningMarker = false) :
    (stepFrag s c).notifs = [doneNotif] ∧
    (stepFrag s c).state.inReasoning = false ∧
    (runFrags (stepFrag s c).state fs).notifs = [] ∧
    ∀ fs1 fs2, fs = fs1 ++ fs2 →
      (runFrags (stepFrag s c).state fs1).state.inReasoning = false := by
  have hstep := stepFrag_resultFire s c hIn hc hRes
  refine ⟨by rw [hstep], by rw [hstep], ?_, ?_⟩
  · rw [hstep]
    exact (runFrags_quiet fs _ rfl (by simpa using hNo)).2
  · intro fs1 fs2 hsplit
    rw [hstep]
    have hNo1 : containsB (flattenL fs1) reasoningMarker = false := by
      rw [hsplit, flattenL_append] at hNo
      exact containsB_false_of_append _ _ _ hNo
    have hq := (runFrags_quiet fs1
      { fullResponse := s.fullResponse ++ c, reasoningBuffer := [],
        inReasoning := false } rfl (by simpa using hNo1)).1
    rw [hq]

/-- Claim C3, witness for the amended theorem at a concrete run. -/
theorem claim_C3_witness :
    ((⟨[], ("RES".toList), true⟩ : CState).inReasoning = true ∧
      ("ULT: done".toList) ≠ ([] : List Char) ∧
      containsB (("RES".toList) ++ ("ULT: done".toList)) resultMarker = true ∧
      containsB (flattenL [("extra text.".toList)]) reasoningMarker = false) ∧
    (stepFrag ⟨[], ("RES".toList), true⟩ ("ULT: done".toList)).notifs = [doneNotif] ∧
    (runFrags (stepFrag ⟨[], ("RES".toList), true⟩ ("ULT: done".toList)).state
      [("extra text.".toList)]).notifs = [] :=
  ⟨⟨rfl, by decide, by decide, by decide⟩,
    (claim_C3_amended ⟨[], ("RES".toList), true⟩ ("ULT: done".toList)
      [("extra text.".toList)] rfl (by decide) (by decide) (by decide)).1,
    (claim_C3_amended ⟨[], ("RES".toList), true⟩ ("ULT: done".toList)
      [("extra text.".toList)] rfl (by decide) (by decide) (by decide)).2.2.1⟩

/-- Claim C4 (confirmed): the activity filter admits a candidate iff the
haversine distance from the hotel is at most `maxDistance` AND its price
(0 when absent) is at most `budget` — a conjunction of both conditions. -/
theorem claim_C4 (hotel : Hotel) (activities : List Activity)
    (preferences : Prefs) (a : Activity) :
    a ∈ filterActivities hotel activities preferences ↔
      a ∈ activities ∧
        calculateDistance hotel.lat hotel.lng a.lat a.lng ≤ preferences.maxDistance ∧
        a.price.getD 0 ≤ preferences.budget := by
  simp [filterActivities, List.mem_filter]

/-- Claim C5 (confirmed): the six-fragment reference trace produces exactly
the start notification (on completing `REASONING:` across fragments), one
`AI: hello world.` notification, no notification for `more text.` (trimmed
length 10), the success notification (on completing `RESULT:` across
fragments), and an accumulated text equal to the in-order concatenation of
all six fragments, each also relayed as a chunk. -/
theorem claim_C5 :
    runFrags initState [("REAS".toList), ("ONING:".toList), (" hello world. ".toList),
        ("more text. ".toList), ("RE".toList), ("SULT: [1,2,3]".toList)] =
      { state := { fullResponse :=
                     ("REASONING: hello world. more text. RESULT: [1,2,3]".toList),
                   reasoningBuffer := [], inReasoning := false },
        notifs := [startNotif,
          { level := LogLevel.info, message := ("AI: hello world.".toList) }, doneNotif],
        chunks := [("REAS".toList), ("ONING:".toList), (" hello world. ".toList),
          ("more text. ".toList), ("RE".toList), ("SULT: [1,2,3]".toList)] } := by decide

/-- Claim C6 (confirmed): every (nonempty) fragment is relayed verbatim as a
single chunk event, and the relayed chunks do not depend on the classifier
state in any way — the relay is not gated by the classification. -/
theorem claim_C6 (s t : CState) (content : List Char) (hc : content ≠ []) :
    (stepFrag s content).chunks = [content] ∧
    (stepFrag s content).chunks = (stepFrag t content).chunks := by
  rw [stepFrag_chunks, stepFrag_chunks, if_neg hc]
  exact ⟨rfl, rfl⟩

/-- Claim C6, witness at a concrete fragment. -/
theorem claim_C6_witness :
    ("hi".toList) ≠ ([] : List Char) ∧
    (stepFrag initState ("hi".toList)).chunks = [("hi".toList)] :=
  ⟨by decide, (claim_C6 initState initState ("hi".toList) (by decide)).1⟩

/-- Claim C7 (confirmed): the result extraction is a pure function, and
applied to an already-extracted `resultText` that contains no `RESULT:`
marker it returns that text unchanged as `resultText` with an empty
`reasoningText` (idempotence on the marker-free output). -/
theorem claim_C7 (t : List Char)
    (h : containsB ((extractResult t).resultText) resultMarker = false) :
    extractResult ((extractResult t).resultText) =
      { reasoningText := [], resultText := (extractResult t).resultText } := by
  rw [extractResult_eq, if_neg (by simp [h])]

/-- Claim C7, witness at a concrete input. -/
theorem claim_C7_witness :
    containsB ((extractResult ("REASONING: a RESULT: [5]".toList)).resultText)
        resultMarker = false ∧
    extractResult ((extractResult ("REASONING: a RESULT: [5]".toList)).resultText) =
      { reasoningText := [],
        resultText := (extractResult ("REASONING: a RESULT: [5]".toList)).resultText } :=
  ⟨by decide, claim_C7 ("REASONING: a RESULT: [5]".toList) (by decide)⟩

/-- Claim C8 (confirmed): `calculateDistance` is symmetric in its two
coordinate pairs, and the distance from any coordinate to itself is 0. -/
theorem claim_C8 :
    (∀ lat1 lon1 lat2 lon2 : ℝ,
      calculateDistance lat1 lon1 lat2 lon2 = calculateDistance lat2 lon2 lat1 lon1) ∧
    (∀ lat lon : ℝ, calculateDistance lat lon lat lon = 0) := by
  constructor
  · intro lat1 lon1 lat2 lon2
    unfold calculateDistance
    rw [haverA_symm]
  · intro lat lon
    unfold calculateDistance
    rw [haverA_self, sub_zero, Real.sqrt_zero, Real.sqrt_one, atan2_zero_one]
    ring

/-- Claim C9 (confirmed): a broadcast delivers the record exactly to the
observers currently in the ready state, without modifying the observer set
(not-ready observers are skipped, not removed); broadcasting to an empty
observer set is a no-op; and after an unsubscribe, the removed observer
receives no further broadcasts. -/
theorem claim_C9 :
    (∀ (clients : List Nat) (ready : Nat → Bool) (n : Notif),
      (broadcast clients ready n).1 = clients ∧
      ∀ c, (c, n) ∈ (broadcast clients ready n).2 ↔ c ∈ clients ∧ ready c = true) ∧
    (∀ (ready : Nat → Bool) (n : Notif), broadcast [] ready n = ([], [])) ∧
    (∀ (clients : List Nat) (x : Nat) (ready : Nat → Bool) (n m : Notif),
      clients.Nodup →
      (x, m) ∉ (broadcast (unsubscribeClient clients x) ready n).2) := by
  refine ⟨?_, ?_, ?_⟩
  · intro clients ready n
    refine ⟨rfl, ?_⟩
    intro c
    simp only [broadcast, List.mem_filterMap]
    constructor
    · rintro ⟨a, ha, hfa⟩
      by_cases hr : ready a = true
      · rw [if_pos hr] at hfa
        injection hfa with h
        have hac : a = c := congrArg Prod.fst h
        rw [hac] at ha hr
        exact ⟨ha, hr⟩
      · rw [if_neg hr] at hfa
        exact Option.noConfusion hfa
    · rintro ⟨hc, hr⟩
      exact ⟨c, hc, by rw [if_pos hr]⟩
  · intro ready n
    rfl
  · intro clients x ready n m hnd hmem
    simp only [broadcast, List.mem_filterMap] at hmem
    obtain ⟨a, ha, hfa⟩ := hmem
    by_cases hr : ready a = true
    · rw [if_pos hr] at hfa
      injection hfa with h
      have hax : a = x := congrArg Prod.fst h
      rw [hax] at ha
      simp only [unsubscribeClient] at ha
      exact (List.Nodup.not_mem_erase hnd) ha
    · rw [if_neg hr] at hfa
      exact Option.noConfusion hfa

/-- Claim C9, witness for the unsubscribe part at a concrete observer set. -/
theorem claim_C9_witness :
    ([1, 2] : List Nat).Nodup ∧
    (1, startNotif) ∉
      (broadcast (unsubscribeClient [1, 2] 1) (fun _ => true) startNotif).2 :=
  ⟨by decide, claim_C9.2.2 [1, 2] 1 (fun _ => true) startNotif startNotif (by decide)⟩

/-- Claim C10 (confirmed): a single fragment containing both markers,
delivered in the initial state, emits only the start notification — the
buffer is cleared by the `REASONING:` transition before the `RESULT:` check,
so the `RESULT:` marker in that fragment is lost and no success
notification is ever emitted in the streaming phase — while the post-stream
extractor still splits the accumulated text on the first `RESULT:`. -/
theorem claim_C10 (frag : List Char)
    (h1 : containsB frag reasoningMarker = true)
    (h2 : containsB frag resultMarker = true) :
    (runFrags initState [frag]).notifs = [startNotif] ∧
    (runFrags initState [frag]).state.inReasoning = true ∧
    (runFrags initState [frag]).state.fullResponse = frag ∧
    (extractResult frag).resultText =
      trimL (beforeFirst resultMarker (afterFirst resultMarker frag)) := by
  have hR : 'R' ∈ frag := (containsB_substr frag reasoningMarker h1).subset (by decide)
  have hfragne : frag ≠ [] := by
    intro h
    rw [h] at hR
    exact List.not_mem_nil _ hR
  have hstep : stepFrag initState frag =
      { state := { fullResponse := frag, reasoningBuffer := [], inReasoning := true },
        notifs := [startNotif], chunks := [frag] } := by
    simp only [stepFrag, if_neg hfragne]
    rw [if_pos (show containsB (initState.reasoningBuffer ++ frag) reasoningMarker = true ∧
      initState.inReasoning = false from ⟨by simpa using h1, rfl⟩)]
    rw [if_neg (show ¬(containsB (true, ([] : List Char),
      [startNotif]).2.1 resultMarker = true ∧
      (true, ([] : List Char), [startNotif]).1 = true) by decide)]
    split <;> rfl
  refine ⟨?_, ?_, ?_, ?_⟩
  · simp [runFrags, hstep]
  · simp [runFrags, hstep]
  · simp [runFrags, hstep]
  · rw [extractResult_eq, if_pos h2]

/-- Claim C10, witness at a concrete double-marker fragment. -/
theorem claim_C10_witness :
    containsB ("REASONING: pick. RESULT: [7]".toList) reasoningMarker = true ∧
    containsB ("REASONING: pick. RESULT: [7]".toList) resultMarker = true ∧
    (runFrags initState [("REASONING: pick. RESULT: [7]".toList)]).notifs =
      [startNotif] :=
  ⟨by decide, by decide,
    (claim_C10 ("REASONING: pick. RESULT: [7]".toList) (by decide) (by decide)).1⟩
